import Mathlib

/-!
Shallow embedding of the `fui` form library (`src/form.rs`) and the parts of
its field/widget interface that `FormView` relies on.

The repository's `src/` holds only `form.rs`; the `fields` module (the
`FormField` trait with its validator pipeline and widget managers) and the
external collaborators (cursive widgets, clap matches) are modelled from the
spec where noted.  `FormView`'s own logic — `field`, `set_on_submit`,
`set_on_cancel`, `clap_arg_matches2value`, `validate`, `event_submit`,
`event_cancel`, `wrap_on_event` — is translated directly from `form.rs`.
-/

namespace Fui

/-- The serde_json value model: Null, Bool, Number, String, Array, Object.
Numbers are modelled as integers (no claim touches numeric values); an Object
is an association list of key/value pairs. -/
inductive Value where
  | null : Value
  | bool (b : Bool) : Value
  | num (n : Int) : Value
  | str (s : String) : Value
  | arr (xs : List Value) : Value
  | obj (m : List (String × Value)) : Value

/-- The keys of an Object value (empty for non-objects). -/
def Value.objKeys : Value → List String
  | .obj m => m.map Prod.fst
  | _ => []

/-- Map insertion as performed by `serde_json::Map::insert` and
`HashMap::insert`: if the key is present its value is replaced, otherwise the
pair is appended.  (The iteration order of the Rust maps is not relied on by
any claim; this model keeps insertion order.) -/
def mapInsert {α : Type} (m : List (String × α)) (k : String) (v : α) : List (String × α) :=
  match m with
  | [] => [(k, v)]
  | (k0, v0) :: rest => if k0 = k then (k0, v) :: rest else (k0, v0) :: mapInsert rest k v

/-- Modelled from the spec: a field's live widget instance.  The spec's
`extract_from_widget` reads the current raw text (`raw`); `set_widget_error`
decorates the widget with a visible error annotation (`error`), the empty
message clearing it.  (The widget sources are not under `src/`.) -/
structure Widget where
  raw : Option String
  error : String
deriving DecidableEq

/-- Modelled from the spec: `WidgetManager::get_value` /
`extract_from_widget(handle) -> Option<String>` reads the field's current raw
text directly from its live widget instance. -/
def get_value (w : Widget) : Option String :=
  w.raw

/-- Modelled from the spec: `WidgetManager::set_error` /
`set_widget_error(handle, message)` decorates the live widget with a visible
error annotation; an empty message clears any prior annotation. -/
def set_error (w : Widget) (msg : String) : Widget :=
  { w with error := msg }

/-- Modelled from the spec: a `FormField` trait object.  `label` is the
human-readable key (name and label coincide); `build_widget` instantiates the
field's interactive widget from its configuration; `validate` runs the field's
ordered validator pipeline on the raw optional text, returning the coerced
Value or the first error message.  (The `fields` module is not under `src/`;
`FormView` only calls these operations.) -/
structure Field where
  label : String
  build_widget : Widget
  validate : Option String → Except String Value

/-- Parsed flag results (`clap::ArgMatches`), modelled as the name → raw
string pairs the parser recovered. -/
def ArgMatches : Type := List (String × String)

/-- Modelled from the spec: `FormField::clap_args2str` /
`extract_from_parsed_flags(parsed) -> Option<String>` looks up this field's
raw value by name (name = label) in the externally parsed flag results. -/
def Field.clap_args2str (f : Field) (am : ArgMatches) : Option String :=
  List.lookup f.label am

/-- `cursive::views::DialogFocus`: focus is on the content or on button `n`
(button 0 is "Cancel", button 1 is "Submit (Ctrl+f)", as laid out by
`FormView::new`). -/
inductive DialogFocus where
  | Content : DialogFocus
  | Button (n : Nat) : DialogFocus
deriving DecidableEq

/-- The `cursive::views::Dialog` wrapping the form: its content is a vertical
`LinearLayout` whose children are the field widgets (in order), plus the two
buttons and the current focus.  Only the parts `form.rs` touches are kept. -/
structure Dialog where
  title : String
  children : List Widget
  buttons : List String
  focus : DialogFocus

/-- Identifier of a registered callback closure (the closures themselves are
opaque; registration order lets us name them). -/
abbrev CallbackId := Nat

/-- The callback a consumed event schedules: the submit callback applied to
the aggregate Value, or the cancel callback. -/
inductive CallbackCall where
  | submit (id : CallbackId) (v : Value) : CallbackCall
  | cancel (id : CallbackId) : CallbackCall

/-- `cursive::event::EventResult`: the event was ignored, or consumed with an
optional callback to run. -/
inductive EventResult where
  | Ignored : EventResult
  | Consumed (cb : Option CallbackCall) : EventResult

/-- `FormView` (`src/form.rs`): the wrapped dialog, the ordered field list and
the two optional callbacks (`on_submit`, `on_cancel`). -/
structure FormView where
  view : Dialog
  fields : List Field
  on_submit : Option CallbackId
  on_cancel : Option CallbackId

/-- `FormView::new` (`form.rs:28-39`): empty vertical layout content, buttons
"Cancel" and "Submit (Ctrl+f)", no fields, no callbacks. -/
def FormView.new : FormView :=
  { view := { title := "", children := [], buttons := ["Cancel", "Submit (Ctrl+f)"],
              focus := .Content }
    fields := []
    on_submit := none
    on_cancel := none }

/-- `FormView::field` (`form.rs:42-52`): builds the field's widget, appends it
to the layout's children, pushes the field onto the field list and returns the
form (builder chaining). -/
def FormView.field (self : FormView) (f : Field) : FormView :=
  { self with
    view := { self.view with children := self.view.children ++ [f.build_widget] }
    fields := self.fields ++ [f] }

/-- `FormView::set_on_submit` (`form.rs:55-60`): stores the callback. -/
def FormView.set_on_submit (self : FormView) (cb : CallbackId) : FormView :=
  { self with on_submit := some cb }

/-- `FormView::on_submit` (`form.rs:65-71`), the chainable variant: calls
`set_on_submit` and returns the form. -/
def FormView.on_submit_chain (self : FormView) (cb : CallbackId) : FormView :=
  self.set_on_submit cb

/-- `FormView::set_on_cancel` (`form.rs:74-79`): stores the callback. -/
def FormView.set_on_cancel (self : FormView) (cb : CallbackId) : FormView :=
  { self with on_cancel := some cb }

/-- `FormView::on_cancel` (`form.rs:84-90`), the chainable variant: calls
`set_on_cancel` and returns the form. -/
def FormView.on_cancel_chain (self : FormView) (cb : CallbackId) : FormView :=
  self.set_on_cancel cb

/-- `FormView::clap_arg_matches2value` (`form.rs:108-123`): for every field,
extract its raw flag value and validate it; on success insert the value under
the field's label, on failure print `"ERROR: {:?}"` of the message to stderr
and continue.  Always returns `Value::Object` of whatever was inserted.  The
model returns the Object together with the list of messages printed to stderr
(the only observable effect of the error branch).  `clapStep` is one loop
iteration. -/
def clapStep (arg_matches : ArgMatches) (acc : List (String × Value) × List String)
    (field : Field) : List (String × Value) × List String :=
  match field.validate (field.clap_args2str arg_matches) with
  | .ok v => (mapInsert acc.1 field.label v, acc.2)
  | .error e => (acc.1, acc.2 ++ ["ERROR: " ++ reprStr e])

/-- `FormView::clap_arg_matches2value`, the loop over the fields folding
`clapStep`. -/
def FormView.clap_arg_matches2value (self : FormView) (arg_matches : ArgMatches) :
    Value × List String :=
  let acc := self.fields.foldl (clapStep arg_matches) ([], [])
  (Value.obj acc.1, acc.2)

/-- One iteration of the loop in `FormView::validate` (`form.rs:129-147`):
read the field's live raw text from its widget, validate; insert the value
under the label on success, the error message under the label on failure. -/
def validateStep (acc : List (String × Value) × List (String × String))
    (fw : Field × Widget) : List (String × Value) × List (String × String) :=
  match fw.1.validate (get_value fw.2) with
  | .ok v => (mapInsert acc.1 fw.1.label v, acc.2)
  | .error e => (acc.1, mapInsert acc.2 fw.1.label e)

/-- The loop of `FormView::validate`, folding `validateStep` over the fields
paired with their widgets (the code walks `fields` by index and fetches
`get_child(idx)`; pairing positionally is exact when the form is well formed,
i.e. one child per field, which `new`/`field` maintain). -/
def validateFold (l : List (Field × Widget))
    (acc : List (String × Value) × List (String × String)) :
    List (String × Value) × List (String × String) :=
  match l with
  | [] => acc
  | fw :: rest => validateFold rest (validateStep acc fw)

/-- `FormView::validate` (`form.rs:125-154`): run every field's validator on
its live widget text, collecting values and errors; return `Ok(Object(data))`
when no errors were collected, `Err(errors)` otherwise. -/
def FormView.validate (self : FormView) : Except (List (String × String)) Value :=
  let acc := validateFold (self.fields.zip self.view.children) ([], [])
  if acc.2.isEmpty then .ok (.obj acc.1) else .error acc.2

/-- `FormView::event_submit` (`form.rs:156-189`): validate; on success the
event is consumed carrying the submit callback (if registered) applied to the
aggregate data; on failure every field's widget gets `set_error` with its
error message from the map, or `""` when it has none, and the event is
consumed with no callback. -/
def FormView.event_submit (self : FormView) : FormView × EventResult :=
  match self.validate with
  | .ok data_map =>
      (self, .Consumed (self.on_submit.map fun cb => .submit cb data_map))
  | .error errors =>
      let annotated := List.zipWith
        (fun (field : Field) (w : Widget) =>
          set_error w ((List.lookup field.label errors).getD ""))
        self.fields self.view.children
      let children := annotated ++ self.view.children.drop self.fields.length
      ({ self with view := { self.view with children := children } }, .Consumed none)

/-- `FormView::event_cancel` (`form.rs:191-196`): the event is consumed
carrying the cancel callback when one is registered. -/
def FormView.event_cancel (self : FormView) : FormView × EventResult :=
  (self, .Consumed (self.on_cancel.map .cancel))

/-- `FormView::title` (`form.rs:199-202`): sets the dialog title. -/
def FormView.title (self : FormView) (t : String) : FormView :=
  { self with view := { self.view with title := t } }

/-- `cursive::event::Key`, restricted to the keys the routing distinguishes
plus representatives of the rest. -/
inductive Key where
  | Enter | Tab | Backspace | Esc | Left | Right | Up | Down
deriving DecidableEq

/-- `cursive::event::MouseButton`. -/
inductive MouseButton where
  | Left | Right | Middle
deriving DecidableEq

/-- `cursive::event::MouseEvent`. -/
inductive MouseEvent where
  | Press (btn : MouseButton)
  | Release (btn : MouseButton)
  | Hold (btn : MouseButton)
  | WheelUp
  | WheelDown
deriving DecidableEq

/-- `cursive::event::Event`, restricted to the shapes `wrap_on_event`
distinguishes plus representatives of the rest ( `.Chr` is a plain printable
character, `.Refresh` any other toolkit event). -/
inductive Event where
  | Mouse (event : MouseEvent)
  | Key (k : Key)
  | CtrlChar (c : Char)
  | Chr (c : Char)
  | Refresh
deriving DecidableEq

/-- The external toolkit's own handling of an event by the wrapped dialog
(`self.with_view_mut(|v| v.on_event(event))` — cursive code, out of scope):
an arbitrary transition of the dialog returning an event result. -/
abbrev Forward := Dialog → Event → Dialog × EventResult

/-- Forward an event to the wrapped view and keep its result, as the
`ViewWrapper` default behaviour does. -/
def forwardTo (fwd : Forward) (self : FormView) (ev : Event) : FormView × EventResult :=
  let r := fwd self.view ev
  ({ self with view := r.1 }, r.2)

/-- `FormView::wrap_on_event` (`form.rs:208-241`): a left mouse press is first
given to the wrapped view (its result dropped), then dispatched on the
resulting focus — Button 0 cancels, Button 1 submits, anything else is
reported ignored; a non-left mouse press is reported ignored (not forwarded);
Enter dispatches on the current focus, forwarding when focus is not on a
button; Ctrl+f submits; every other event is forwarded. -/
def FormView.wrap_on_event (fwd : Forward) (self : FormView) (event : Event) :
    FormView × EventResult :=
  match event with
  | .Mouse (.Press btn) =>
      if btn = MouseButton.Left then
        let self' := { self with view := (fwd self.view event).1 }
        match self'.view.focus with
        | .Button 0 => self'.event_cancel
        | .Button 1 => self'.event_submit
        | _ => (self', .Ignored)
      else
        (self, .Ignored)
  | .Key .Enter =>
      match self.view.focus with
      | .Button 0 => self.event_cancel
      | .Button 1 => self.event_submit
      | _ => forwardTo fwd self event
  | .CtrlChar c =>
      if c = 'f' then self.event_submit else forwardTo fwd self event
  | _ => forwardTo fwd self event

/-- The spec's interaction-routing rule (§4.4, as amended by the observed
behaviour of `wrap_on_event`): Enter dispatches on the current focus (cancel
control → cancel, submit control → submit, otherwise forward); a left mouse
press is first given to the wrapped view — its own result discarded — and then
dispatches on the resulting focus, reporting the event ignored when focus is
on neither control; a non-left mouse press is reported ignored without
forwarding; Ctrl+f submits from anywhere; every other event is forwarded
unmodified. -/
def routeSpec (fwd : Forward) (f : FormView) (ev : Event) : FormView × EventResult :=
  match ev with
  | .Key .Enter =>
      if f.view.focus = .Button 0 then f.event_cancel
      else if f.view.focus = .Button 1 then f.event_submit
      else forwardTo fwd f ev
  | .Mouse (.Press b) =>
      if b = MouseButton.Left then
        let f' := { f with view := (fwd f.view ev).1 }
        if f'.view.focus = .Button 0 then f'.event_cancel
        else if f'.view.focus = .Button 1 then f'.event_submit
        else (f', .Ignored)
      else (f, .Ignored)
  | .CtrlChar c =>
      if c = 'f' then f.event_submit else forwardTo fwd f ev
  | _ => forwardTo fwd f ev

/-- The value entries `FormView::validate` collects, in field order: one entry
per field whose validator accepts its live widget text. -/
def passList : List (Field × Widget) → List (String × Value)
  | [] => []
  | fw :: rest =>
      match fw.1.validate (get_value fw.2) with
      | .ok v => (fw.1.label, v) :: passList rest
      | .error _ => passList rest

/-- The error entries `FormView::validate` collects, in field order: one entry
per field whose validator rejects its live widget text. -/
def failList : List (Field × Widget) → List (String × String)
  | [] => []
  | fw :: rest =>
      match fw.1.validate (get_value fw.2) with
      | .ok _ => failList rest
      | .error e => (fw.1.label, e) :: failList rest

/-- The value entries `clap_arg_matches2value` collects, in field order: one
entry per field whose validator accepts its extracted flag value. -/
def clapPassList (am : ArgMatches) : List Field → List (String × Value)
  | [] => []
  | fd :: rest =>
      match fd.validate (fd.clap_args2str am) with
      | .ok v => (fd.label, v) :: clapPassList am rest
      | .error _ => clapPassList am rest

/-- The messages `clap_arg_matches2value` prints to stderr, in field order:
one per field whose validator rejects its extracted flag value. -/
def clapMsgs (am : ArgMatches) : List Field → List String
  | [] => []
  | fd :: rest =>
      match fd.validate (fd.clap_args2str am) with
      | .ok _ => clapMsgs am rest
      | .error e => ("ERROR: " ++ reprStr e) :: clapMsgs am rest

/-- Whether the field's validator chain accepts the given raw input
(`Field.validate` returned `Ok`). -/
def accepts (fd : Field) (raw : Option String) : Bool :=
  match fd.validate raw with
  | .ok _ => true
  | .error _ => false

/-- Modelled from the spec: the Required validator composed with the terminal
coercion — absent or empty raw input fails with a "<field> is required"
message, otherwise the raw string is coerced to a String value.  Used to build
concrete example fields. -/
def requiredValidate (lbl : String) (raw : Option String) : Except String Value :=
  match raw with
  | none => .error (lbl ++ " is required")
  | some "" => .error (lbl ++ " is required")
  | some s => .ok (.str s)

/-- Example field "target" with a Required validator and no initial value. -/
def exFieldReq : Field :=
  { label := "target", build_widget := { raw := none, error := "" },
    validate := requiredValidate "target" }

/-- Example field "target" with a Required validator and initial raw text
"archive.tar" prepopulating its widget. -/
def exFieldInit : Field :=
  { label := "target", build_widget := { raw := some "archive.tar", error := "" },
    validate := requiredValidate "target" }

/-- Example form with the single required field "target", empty. -/
def exFormReq : FormView :=
  FormView.new.field exFieldReq

/-- Example form with the single field "target" holding "archive.tar". -/
def exFormOk : FormView :=
  FormView.new.field exFieldInit

/-- Example form with focus on the Cancel button and a registered cancel
callback (id 7), no submit callback. -/
def exFormCancel : FormView :=
  { view := { title := "", children := [], buttons := ["Cancel", "Submit (Ctrl+f)"],
              focus := .Button 0 }
    fields := []
    on_submit := none
    on_cancel := some 7 }

/-- An external forward handler that consumes every event (leaving the dialog
unchanged): used to exhibit events the routing swallows instead of
forwarding. -/
def fwdConsume : Forward := fun v _ => (v, .Consumed none)

/-- `exFormReq` after its widget received the "target is required" error
annotation: same fields, same raw texts, different error decorations. -/
def exFormReqAnnotated : FormView :=
  { exFormReq with
    view := { exFormReq.view with
              children := [{ raw := none, error := "target is required" }] } }

/-- Inserting a fresh key appends the pair at the end. -/
theorem mapInsert_of_notMem {α : Type} (m : List (String × α)) (k : String) (v : α)
    (h : k ∉ m.map Prod.fst) : mapInsert m k v = m ++ [(k, v)] := by
  induction m with
  | nil => rfl
  | cons p rest ih =>
      obtain ⟨k0, v0⟩ := p
      simp only [List.map_cons, List.mem_cons, not_or] at h
      obtain ⟨h1, h2⟩ := h
      have hne : ¬ (k0 = k) := fun hh => h1 hh.symm
      simp only [mapInsert, if_neg hne, List.cons_append, List.cons.injEq, true_and]
      exact ih h2

/-- Looking up a key that is not among the keys yields `none`. -/
theorem lookup_eq_none_of_notMem {α : Type} (k : String) (m : List (String × α))
    (h : k ∉ m.map Prod.fst) : List.lookup k m = none := by
  induction m with
  | nil => rfl
  | cons p rest ih =>
      obtain ⟨k0, v0⟩ := p
      simp only [List.map_cons, List.mem_cons, not_or] at h
      obtain ⟨h1, h2⟩ := h
      simp only [List.lookup, beq_eq_false_iff_ne.mpr h1]
      exact ih h2

/-- The loop of `FormView::validate`, characterised: starting from
accumulators whose keys are disjoint from the (duplicate-free) labels still to
be processed, it appends exactly the accepted entries to the data map and the
rejected ones to the error map. -/
theorem validateFold_spec (l : List (Field × Widget)) :
    ∀ (acc : List (String × Value) × List (String × String)),
    (l.map fun fw => fw.1.label).Nodup →
    (∀ fw ∈ l, fw.1.label ∉ acc.1.map Prod.fst ∧ fw.1.label ∉ acc.2.map Prod.fst) →
    validateFold l acc = (acc.1 ++ passList l, acc.2 ++ failList l) := by
  induction l with
  | nil => intro acc _ _; simp [validateFold, passList, failList]
  | cons fw rest ih =>
      intro acc hnd hmem
      have hhead := hmem fw (List.mem_cons_self fw rest)
      have hndrest : (rest.map fun fw => fw.1.label).Nodup := (List.nodup_cons.mp hnd).2
      have hheadlbl : fw.1.label ∉ rest.map fun fw => fw.1.label := (List.nodup_cons.mp hnd).1
      cases hv : fw.1.validate (get_value fw.2) with
      | ok v =>
          have hstep : validateStep acc fw = (mapInsert acc.1 fw.1.label v, acc.2) := by
            simp [validateStep, hv]
          rw [validateFold, hstep, mapInsert_of_notMem _ _ _ hhead.1]
          rw [ih _ hndrest ?_]
          · simp [passList, failList, hv]
          · intro fw' hfw'
            have hne : fw'.1.label ≠ fw.1.label := by
              intro he
              exact hheadlbl (he ▸ List.mem_map_of_mem (fun fw => fw.1.label) hfw')
            have := hmem fw' (List.mem_cons_of_mem fw hfw')
            constructor
            · simp [List.map_append, this.1, hne]
            · exact this.2
      | error e =>
          have hstep : validateStep acc fw = (acc.1, mapInsert acc.2 fw.1.label e) := by
            simp [validateStep, hv]
          rw [validateFold, hstep, mapInsert_of_notMem _ _ _ hhead.2]
          rw [ih _ hndrest ?_]
          · simp [passList, failList, hv]
          · intro fw' hfw'
            have hne : fw'.1.label ≠ fw.1.label := by
              intro he
              exact hheadlbl (he ▸ List.mem_map_of_mem (fun fw => fw.1.label) hfw')
            have := hmem fw' (List.mem_cons_of_mem fw hfw')
            constructor
            · exact this.1
            · simp [List.map_append, this.2, hne]

/-- In a well-formed form (one widget child per field) the labels of the
field/widget pairs are the field labels. -/
theorem zip_labels (f : FormView) (hwf : f.view.children.length = f.fields.length) :
    ((f.fields.zip f.view.children).map fun fw => fw.1.label) = f.fields.map Field.label := by
  have h1 : ((f.fields.zip f.view.children).map fun fw => fw.1.label)
      = ((f.fields.zip f.view.children).map Prod.fst).map Field.label := by
    simp [List.map_map, Function.comp]
  rw [h1, List.map_fst_zip _ _ (by omega)]

/-- `FormView::validate` characterised: it returns the accepted entries when
no field was rejected, and the rejected entries otherwise. -/
theorem validate_eq_spec (f : FormView)
    (hnd : ((f.fields.zip f.view.children).map fun fw => fw.1.label).Nodup) :
    f.validate = if failList (f.fields.zip f.view.children) = []
      then .ok (.obj (passList (f.fields.zip f.view.children)))
      else .error (failList (f.fields.zip f.view.children)) := by
  unfold FormView.validate
  rw [validateFold_spec _ ([], []) hnd (by simp)]
  simp only [List.nil_append]
  rcases hfl : failList (f.fields.zip f.view.children) with _ | ⟨p, rest⟩
  · simp
  · simp

/-- No rejected entry is collected exactly when every field's validator
accepts its live widget text. -/
theorem failList_eq_nil_iff (l : List (Field × Widget)) :
    failList l = [] ↔ ∀ fw ∈ l, accepts fw.1 (get_value fw.2) = true := by
  induction l with
  | nil => simp [failList]
  | cons fw rest ih =>
      cases hv : fw.1.validate (get_value fw.2) with
      | ok v => simp [failList, hv, accepts, ih]
      | error e => simp [failList, hv, accepts]

/-- The keys of the rejected entries are the labels of the rejected fields, in
order. -/
theorem failList_keys (l : List (Field × Widget)) :
    (failList l).map Prod.fst =
      (l.filter fun fw => !accepts fw.1 (get_value fw.2)).map fun fw => fw.1.label := by
  induction l with
  | nil => simp [failList]
  | cons fw rest ih =>
      cases hv : fw.1.validate (get_value fw.2) with
      | ok v => simp [failList, hv, accepts, List.filter, ih]
      | error e => simp [failList, hv, accepts, List.filter, ih]

/-- The keys of the accepted entries are the labels of the accepted fields, in
order. -/
theorem passList_keys (l : List (Field × Widget)) :
    (passList l).map Prod.fst =
      (l.filter fun fw => accepts fw.1 (get_value fw.2)).map fun fw => fw.1.label := by
  induction l with
  | nil => simp [passList]
  | cons fw rest ih =>
      cases hv : fw.1.validate (get_value fw.2) with
      | ok v => simp [passList, hv, accepts, List.filter, ih]
      | error e => simp [passList, hv, accepts, List.filter, ih]

/-- Looking up a rejected field's label in the collected errors yields its
message (labels duplicate-free). -/
theorem lookup_failList_of_error (l : List (Field × Widget))
    (hnd : (l.map fun fw => fw.1.label).Nodup) :
    ∀ fw ∈ l, ∀ e, fw.1.validate (get_value fw.2) = .error e →
      List.lookup fw.1.label (failList l) = some e := by
  induction l with
  | nil => intro fw h; exact absurd h (List.not_mem_nil fw)
  | cons hd rest ih =>
      intro fw hmem e hv
      have hndrest : (rest.map fun fw => fw.1.label).Nodup := (List.nodup_cons.mp hnd).2
      have hhd : hd.1.label ∉ rest.map fun fw => fw.1.label := (List.nodup_cons.mp hnd).1
      rcases List.mem_cons.mp hmem with heq | hmem'
      · subst heq
        simp [failList, hv, List.lookup]
      · have hne : fw.1.label ≠ hd.1.label := by
          intro he
          exact hhd (he ▸ List.mem_map_of_mem (fun fw => fw.1.label) hmem')
        cases hv0 : hd.1.validate (get_value hd.2) with
        | ok v => simpa [failList, hv0] using ih hndrest fw hmem' e hv
        | error e0 =>
            simp only [failList, hv0, List.lookup, beq_eq_false_iff_ne.mpr hne]
            exact ih hndrest fw hmem' e hv

/-- Looking up an accepted field's label in the collected errors yields
nothing (labels duplicate-free). -/
theorem lookup_failList_of_ok (l : List (Field × Widget))
    (hnd : (l.map fun fw => fw.1.label).Nodup) :
    ∀ fw ∈ l, accepts fw.1 (get_value fw.2) = true →
      List.lookup fw.1.label (failList l) = none := by
  induction l with
  | nil => intro fw h; exact absurd h (List.not_mem_nil fw)
  | cons hd rest ih =>
      intro fw hmem hacc
      have hndrest : (rest.map fun fw => fw.1.label).Nodup := (List.nodup_cons.mp hnd).2
      have hhd : hd.1.label ∉ rest.map fun fw => fw.1.label := (List.nodup_cons.mp hnd).1
      rcases List.mem_cons.mp hmem with heq | hmem'
      · subst heq
        cases hv : fw.1.validate (get_value fw.2) with
        | ok v =>
            simp only [failList, hv]
            apply lookup_eq_none_of_notMem
            rw [failList_keys]
            intro hmem2
            exact hhd (List.map_subset _ (List.filter_sublist _).subset hmem2)
        | error e => simp [accepts, hv] at hacc
      · have hne : fw.1.label ≠ hd.1.label := by
          intro he
          exact hhd (he ▸ List.mem_map_of_mem (fun fw => fw.1.label) hmem')
        cases hv0 : hd.1.validate (get_value hd.2) with
        | ok v => simpa [failList, hv0] using ih hndrest fw hmem' hacc
        | error e0 =>
            simp only [failList, hv0, List.lookup, beq_eq_false_iff_ne.mpr hne]
            exact ih hndrest fw hmem' hacc

/-- When every field is accepted, the accepted entries carry exactly one key
per field, in field order. -/
theorem passList_keys_of_all_ok (l : List (Field × Widget))
    (h : ∀ fw ∈ l, accepts fw.1 (get_value fw.2) = true) :
    (passList l).map Prod.fst = l.map fun fw => fw.1.label := by
  rw [passList_keys, List.filter_eq_self.mpr h]

/-- The loop of `clap_arg_matches2value`, characterised: with duplicate-free
labels disjoint from the accumulated keys, it appends the accepted entries to
the data map and the error messages of the rejected fields to the printed
output. -/
theorem clapFold_spec (am : ArgMatches) (l : List Field) :
    ∀ (acc : List (String × Value) × List String),
    (l.map Field.label).Nodup →
    (∀ fd ∈ l, fd.label ∉ acc.1.map Prod.fst) →
    l.foldl (clapStep am) acc = (acc.1 ++ clapPassList am l, acc.2 ++ clapMsgs am l) := by
  induction l with
  | nil => intro acc _ _; simp [clapPassList, clapMsgs]
  | cons fd rest ih =>
      intro acc hnd hmem
      have hhead := hmem fd (List.mem_cons_self fd rest)
      have hndrest : (rest.map Field.label).Nodup := (List.nodup_cons.mp hnd).2
      have hheadlbl : fd.label ∉ rest.map Field.label := (List.nodup_cons.mp hnd).1
      cases hv : fd.validate (fd.clap_args2str am) with
      | ok v =>
          have hstep : clapStep am acc fd = (mapInsert acc.1 fd.label v, acc.2) := by
            simp [clapStep, hv]
          rw [List.foldl_cons, hstep, mapInsert_of_notMem _ _ _ hhead]
          rw [ih _ hndrest ?_]
          · simp [clapPassList, clapMsgs, hv]
          · intro fd' hfd'
            have hne : fd'.label ≠ fd.label := by
              intro he
              exact hheadlbl (he ▸ List.mem_map_of_mem Field.label hfd')
            simp [List.map_append, hmem fd' (List.mem_cons_of_mem fd hfd'), hne]
      | error e =>
          have hstep : clapStep am acc fd = (acc.1, acc.2 ++ ["ERROR: " ++ reprStr e]) := by
            simp [clapStep, hv]
          rw [List.foldl_cons, hstep]
          rw [ih _ hndrest ?_]
          · simp [clapPassList, clapMsgs, hv]
          · intro fd' hfd'
            exact hmem fd' (List.mem_cons_of_mem fd hfd')

/-- The keys of the flag-path data map are the labels of the fields whose
validator accepted the extracted flag value, in field order. -/
theorem clapPassList_keys (am : ArgMatches) (l : List Field) :
    (clapPassList am l).map Prod.fst =
      (l.filter fun fd => accepts fd (fd.clap_args2str am)).map Field.label := by
  induction l with
  | nil => simp [clapPassList]
  | cons fd rest ih =>
      cases hv : fd.validate (fd.clap_args2str am) with
      | ok v => simp [clapPassList, hv, accepts, List.filter, ih]
      | error e => simp [clapPassList, hv, accepts, List.filter, ih]

/-- `validateStep` only reads the field and the widget's raw text. -/
theorem validateStep_congr (acc : List (String × Value) × List (String × String))
    (fd : Field) (w1 w2 : Widget) (h : w1.raw = w2.raw) :
    validateStep acc (fd, w1) = validateStep acc (fd, w2) := by
  simp only [validateStep, get_value, h]

/-- `validateFold` only depends on the fields and the raw texts of their
widgets. -/
theorem validateFold_congr (l1 : List (Field × Widget)) :
    ∀ (l2 : List (Field × Widget)) (acc : List (String × Value) × List (String × String)),
    (l1.map fun fw => (fw.1, fw.2.raw)) = (l2.map fun fw => (fw.1, fw.2.raw)) →
    validateFold l1 acc = validateFold l2 acc := by
  induction l1 with
  | nil =>
      intro l2 acc h
      cases l2 with
      | nil => rfl
      | cons p rest => exact absurd h (by simp)
  | cons fw rest ih =>
      intro l2 acc h
      cases l2 with
      | nil => exact absurd h (by simp)
      | cons fw' rest' =>
          simp only [List.map_cons, List.cons.injEq, Prod.mk.injEq] at h
          obtain ⟨⟨hfd, hraw⟩, htail⟩ := h
          rw [validateFold, validateFold]
          have : validateStep acc fw = validateStep acc fw' := by
            obtain ⟨fd1, w1⟩ := fw
            obtain ⟨fd2, w2⟩ := fw'
            simp only at hfd hraw
            subst hfd
            exact validateStep_congr acc fd1 w1 w2 hraw
          rw [this]
          exact ih rest' _ htail

/-- Zipping the same fields with widget lists carrying the same raw texts
projects to the same field/raw pairs. -/
theorem zip_raw_congr (fs : List Field) :
    ∀ (ws1 ws2 : List Widget), ws1.map Widget.raw = ws2.map Widget.raw →
    ((fs.zip ws1).map fun fw => (fw.1, fw.2.raw)) =
      ((fs.zip ws2).map fun fw => (fw.1, fw.2.raw)) := by
  induction fs with
  | nil => intro ws1 ws2 _; simp
  | cons fd rest ih =>
      intro ws1 ws2 h
      cases ws1 with
      | nil =>
          cases ws2 with
          | nil => rfl
          | cons w2 rest2 => exact absurd h (by simp)
      | cons w1 rest1 =>
          cases ws2 with
          | nil => exact absurd h (by simp)
          | cons w2 rest2 =>
              simp only [List.map_cons, List.cons.injEq] at h
              simp only [List.zip_cons_cons, List.map_cons, List.cons.injEq, Prod.mk.injEq,
                true_and]
              exact ⟨h.1, ih rest1 rest2 h.2⟩

/-- On the failure path `event_submit` annotates each field's widget with its
looked-up error (or clears it) and leaves everything else unchanged. -/
theorem event_submit_error_parts (f : FormView) (errs : List (String × String))
    (hv : f.validate = .error errs) :
    (f.event_submit).1.view.children =
      (List.zipWith (fun fd w => set_error w ((List.lookup fd.label errs).getD ""))
        f.fields f.view.children) ++ f.view.children.drop f.fields.length ∧
    (f.event_submit).2 = .Consumed none ∧
    (f.event_submit).1.fields = f.fields ∧
    (f.event_submit).1.on_submit = f.on_submit ∧
    (f.event_submit).1.on_cancel = f.on_cancel := by
  simp [FormView.event_submit, hv]

/-- The keyed dispatch on the dialog focus used by `wrap_on_event`, expressed
with equality tests instead of pattern matching. -/
theorem focus_dispatch (foc : DialogFocus) (x y z : FormView × EventResult) :
    (match foc with
     | DialogFocus.Button 0 => x
     | DialogFocus.Button 1 => y
     | _ => z) =
    (if foc = DialogFocus.Button 0 then x
     else if foc = DialogFocus.Button 1 then y
     else z) := by
  rcases foc with _ | n
  · simp
  · rcases n with _ | n
    · simp
    · rcases n with _ | n
      · simp
      · simp

/-- Appending fields one by one from any starting form appends to the field
list and the child list in lockstep. -/
theorem foldl_field_general (fs : List Field) :
    ∀ g : FormView,
    (fs.foldl FormView.field g).fields = g.fields ++ fs ∧
    (fs.foldl FormView.field g).view.children =
      g.view.children ++ fs.map Field.build_widget := by
  induction fs with
  | nil => intro g; simp
  | cons f0 rest ih =>
      intro g
      obtain ⟨h1, h2⟩ := ih (g.field f0)
      refine ⟨?_, ?_⟩
      · rw [List.foldl_cons, h1]; simp [FormView.field]
      · rw [List.foldl_cons, h2]; simp [FormView.field]

/-- C1: for every well-formed form (one widget child per field, as `new` and
`field` maintain) with unique labels (the spec's Form invariant),
`FormView::validate` returns Ok iff every field's validator chain accepts that
field's current raw widget text; otherwise the error mapping's keys are
exactly the failing fields' labels — one entry per failing field, none for a
passing field, each failing field's label bound to its message — and exactly
one of the two outcomes is produced. -/
theorem C1_validate_all (f : FormView)
    (hwf : f.view.children.length = f.fields.length)
    (hnd : (f.fields.map Field.label).Nodup) :
    ((∃ v, f.validate = Except.ok v) ↔
        ∀ fw ∈ f.fields.zip f.view.children, accepts fw.1 (get_value fw.2) = true) ∧
    (∀ errs, f.validate = Except.error errs →
        (errs.map Prod.fst =
          ((f.fields.zip f.view.children).filter
            (fun fw => !accepts fw.1 (get_value fw.2))).map fun fw => fw.1.label) ∧
        ∀ fw ∈ f.fields.zip f.view.children,
          (∀ e, fw.1.validate (get_value fw.2) = Except.error e →
            List.lookup fw.1.label errs = some e) ∧
          (accepts fw.1 (get_value fw.2) = true →
            List.lookup fw.1.label errs = none)) ∧
    Xor' (∃ v, f.validate = Except.ok v) (∃ errs, f.validate = Except.error errs) := by
  have hndz : ((f.fields.zip f.view.children).map fun fw => fw.1.label).Nodup := by
    rw [zip_labels f hwf]; exact hnd
  have hch := validate_eq_spec f hndz
  by_cases hfl : failList (f.fields.zip f.view.children) = []
  · rw [if_pos hfl] at hch
    refine ⟨⟨fun _ => (failList_eq_nil_iff _).mp hfl, fun _ => ⟨_, hch⟩⟩, ?_, ?_⟩
    · intro errs herr
      rw [hch] at herr
      exact Except.noConfusion herr
    · refine Or.inl ⟨⟨_, hch⟩, ?_⟩
      rintro ⟨errs, herr⟩
      rw [hch] at herr
      exact Except.noConfusion herr
  · rw [if_neg hfl] at hch
    refine ⟨⟨?_, ?_⟩, ?_, ?_⟩
    · rintro ⟨v, hv⟩
      rw [hch] at hv
      exact Except.noConfusion hv
    · intro hall
      exact absurd ((failList_eq_nil_iff _).mpr hall) hfl
    · intro errs herr
      rw [hch] at herr
      have he : failList (f.fields.zip f.view.children) = errs := by
        injection herr
      subst he
      refine ⟨failList_keys _, ?_⟩
      intro fw hfw
      exact ⟨fun e hv => lookup_failList_of_error _ hndz fw hfw e hv,
             fun hacc => lookup_failList_of_ok _ hndz fw hfw hacc⟩
    · refine Or.inr ⟨⟨_, hch⟩, ?_⟩
      rintro ⟨v, hv⟩
      rw [hch] at hv
      exact Except.noConfusion hv

/-- Witness for C1: the one-field form holding "archive.tar" validates Ok, by
applying the theorem at that concrete form. -/
theorem C1_validate_all_witness : ∃ v, exFormOk.validate = Except.ok v :=
  (C1_validate_all exFormOk rfl (by decide)).1.mpr (by decide)

/-- C2 (amended): an Object produced by the interactive validate path has
exactly one key per declared field — its keys are exactly the field labels —
but an Object produced by the flag path `clap_arg_matches2value` has exactly
one key per field whose validator accepted the extracted flag value: fields
whose validator rejected are omitted from it.  Hypotheses: well-formed form,
unique labels. -/
theorem C2_object_keys (f : FormView) (am : ArgMatches)
    (hwf : f.view.children.length = f.fields.length)
    (hnd : (f.fields.map Field.label).Nodup) :
    (∀ v, f.validate = Except.ok v → v.objKeys = f.fields.map Field.label) ∧
    (f.clap_arg_matches2value am).1.objKeys =
      (f.fields.filter fun fd => accepts fd (fd.clap_args2str am)).map Field.label := by
  have hndz : ((f.fields.zip f.view.children).map fun fw => fw.1.label).Nodup := by
    rw [zip_labels f hwf]; exact hnd
  constructor
  · intro v hv
    have hch := validate_eq_spec f hndz
    by_cases hfl : failList (f.fields.zip f.view.children) = []
    · rw [if_pos hfl] at hch
      rw [hch] at hv
      have hv' : Value.obj (passList (f.fields.zip f.view.children)) = v := by
        injection hv
      rw [← hv']
      show (passList (f.fields.zip f.view.children)).map Prod.fst = _
      rw [passList_keys_of_all_ok _ ((failList_eq_nil_iff _).mp hfl), zip_labels f hwf]
    · rw [if_neg hfl] at hch
      rw [hch] at hv
      exact Except.noConfusion hv
  · unfold FormView.clap_arg_matches2value
    rw [clapFold_spec am f.fields ([], []) hnd (by simp)]
    show (clapPassList am f.fields).map Prod.fst = _
    exact clapPassList_keys am f.fields

/-- Witness for C2 at a concrete form and flag set, by applying the theorem
there. -/
theorem C2_object_keys_witness :
    (exFormOk.clap_arg_matches2value [("target", "out.tar")]).1.objKeys =
      (exFormOk.fields.filter
        (fun fd => accepts fd (fd.clap_args2str [("target", "out.tar")]))).map
        Field.label :=
  (C2_object_keys exFormOk [("target", "out.tar")] rfl (by decide)).2

/-- Counterexample to C2 as stated: on the flag path, the form with the single
declared required field "target" and an empty flag set yields an Object with
no keys at all — not one entry per declared field. -/
theorem C2_not_one_entry_per_field :
    (exFormReq.clap_arg_matches2value ([] : ArgMatches)).1.objKeys = [] ∧
    exFormReq.fields.map Field.label = ["target"] ∧
    ([] : List String) ≠ ["target"] :=
  ⟨rfl, rfl, by decide⟩

/-- C3: evaluation of the flag path at the failing input — the form with one
required field "target", no flag supplied.  The code prints the validator's
message to stderr and still returns the Object missing the declared "target"
key; the return type `Value` (no `Result`) carries no failure signal, so the
action's dispatcher has nothing to detect and the callback is invoked with
this partial data, contradicting the claim. -/
theorem C3_flag_error_swallowed :
    exFormReq.fields.map Field.label = ["target"] ∧
    exFormReq.clap_arg_matches2value ([] : ArgMatches) =
      (Value.obj [], ["ERROR: " ++ reprStr "target is required"]) :=
  ⟨rfl, rfl⟩

/-- C4: when a submit event is handled and validation fails, the event is
consumed with no callback (the submit callback is not invoked), the fields and
both callbacks are unchanged (the form stays interactive), the child count is
preserved, and every field's widget receives `set_error` with its message from
the error map — the empty message when it has no entry. -/
theorem C4_submit_failure (f : FormView) (errs : List (String × String))
    (hv : f.validate = Except.error errs)
    (hwf : f.view.children.length = f.fields.length) :
    (f.event_submit).2 = EventResult.Consumed none ∧
    (f.event_submit).1.fields = f.fields ∧
    (f.event_submit).1.on_submit = f.on_submit ∧
    (f.event_submit).1.on_cancel = f.on_cancel ∧
    (f.event_submit).1.view.children.length = f.view.children.length ∧
    ∀ i (hi : i < f.fields.length) (hj : i < (f.event_submit).1.view.children.length)
      (hk : i < f.view.children.length),
      (∀ e, List.lookup (f.fields.get ⟨i, hi⟩).label errs = some e →
        (f.event_submit).1.view.children.get ⟨i, hj⟩ =
          set_error (f.view.children.get ⟨i, hk⟩) e) ∧
      (List.lookup (f.fields.get ⟨i, hi⟩).label errs = none →
        (f.event_submit).1.view.children.get ⟨i, hj⟩ =
          set_error (f.view.children.get ⟨i, hk⟩) "") := by
  obtain ⟨hch, hres, hfs, hs, hc⟩ := event_submit_error_parts f errs hv
  have hdrop : f.view.children.drop f.fields.length = [] :=
    List.drop_eq_nil_of_le (by omega)
  have hch' : (f.event_submit).1.view.children =
      List.zipWith (fun fd w => set_error w ((List.lookup fd.label errs).getD ""))
        f.fields f.view.children := by
    rw [hch, hdrop, List.append_nil]
  refine ⟨hres, hfs, hs, hc, ?_, ?_⟩
  · rw [hch', List.length_zipWith]; omega
  · intro i hi hj hk
    have hget : (f.event_submit).1.view.children.get ⟨i, hj⟩ =
        set_error (f.view.children.get ⟨i, hk⟩)
          ((List.lookup (f.fields.get ⟨i, hi⟩).label errs).getD "") := by
      simp only [List.get_eq_getElem]
      simp only [hch']
      rw [List.getElem_zipWith]
    constructor
    · intro e he
      rw [hget, he]
      rfl
    · intro he
      rw [hget, he]
      rfl

/-- Witness for C4: the required-field form with an empty widget fails
validation and the submit event is consumed with no callback, by applying the
theorem at that concrete form. -/
theorem C4_submit_failure_witness : (exFormReq.event_submit).2 = EventResult.Consumed none :=
  (C4_submit_failure exFormReq [("target", "target is required")] rfl rfl).1

/-- C5: Enter with focus on the Cancel control (button 0) hands the event to
`event_cancel`: the registered cancel callback is the one and only callback
carried by the consumed result, no submit callback can be carried, and the
form is returned unchanged — in particular no validation ran and no widget was
annotated. -/
theorem C5_cancel (fwd : Forward) (f : FormView) (cid : CallbackId)
    (hc : f.on_cancel = some cid) (hf : f.view.focus = DialogFocus.Button 0) :
    FormView.wrap_on_event fwd f (Event.Key Key.Enter) =
      (f, EventResult.Consumed (some (CallbackCall.cancel cid))) ∧
    ∀ sid v, (FormView.wrap_on_event fwd f (Event.Key Key.Enter)).2 ≠
      EventResult.Consumed (some (CallbackCall.submit sid v)) := by
  have h1 : FormView.wrap_on_event fwd f (Event.Key Key.Enter) = f.event_cancel := by
    simp only [FormView.wrap_on_event, hf]
  have h2 : f.event_cancel = (f, EventResult.Consumed (some (CallbackCall.cancel cid))) := by
    simp [FormView.event_cancel, hc]
  refine ⟨h1.trans h2, ?_⟩
  intro sid v hne
  rw [h1, h2] at hne
  simp at hne

/-- Witness for C5 at the concrete form with focus on Cancel and cancel
callback 7, by applying the theorem there. -/
theorem C5_cancel_witness :
    FormView.wrap_on_event fwdConsume exFormCancel (Event.Key Key.Enter) =
      (exFormCancel, EventResult.Consumed (some (CallbackCall.cancel 7))) :=
  (C5_cancel fwdConsume exFormCancel 7 rfl rfl).1

/-- C6: re-registering a submit or cancel callback replaces the prior one —
the retained callback is the last registered — and the events invoke exactly
that callback: `event_cancel` carries the last cancel callback, and a
successful `event_submit` carries the last submit callback applied to the
aggregate value. -/
theorem C6_last_registration_wins (f : FormView) (a b c d : CallbackId) :
    ((f.set_on_submit a).set_on_submit b).on_submit = some b ∧
    ((f.set_on_cancel c).set_on_cancel d).on_cancel = some d ∧
    ((f.set_on_cancel c).set_on_cancel d).event_cancel =
      ((f.set_on_cancel c).set_on_cancel d,
        EventResult.Consumed (some (CallbackCall.cancel d))) ∧
    ∀ v, ((f.set_on_submit a).set_on_submit b).validate = Except.ok v →
      ((f.set_on_submit a).set_on_submit b).event_submit =
        ((f.set_on_submit a).set_on_submit b,
          EventResult.Consumed (some (CallbackCall.submit b v))) := by
  refine ⟨rfl, rfl, ?_, ?_⟩
  · simp [FormView.event_cancel, FormView.set_on_cancel]
  · intro v hv
    simp only [FormView.set_on_submit] at hv ⊢
    simp [FormView.event_submit, hv]

/-- Witness for C6 at the concrete one-field form holding "archive.tar", by
applying the theorem there. -/
theorem C6_last_registration_wins_witness :
    ((exFormOk.set_on_submit 1).set_on_submit 2).event_submit =
      ((exFormOk.set_on_submit 1).set_on_submit 2,
        EventResult.Consumed (some (CallbackCall.submit 2
          (Value.obj [("target", Value.str "archive.tar")])))) :=
  (C6_last_registration_wins exFormOk 1 2 3 4).2.2.2
    (Value.obj [("target", Value.str "archive.tar")]) rfl

/-- C7: `field` appends the field at the end of the ordered field list and its
freshly built widget at the end of the display container's children; starting
from `new`, any sequence of `field` calls therefore yields fields in
declaration order with the i-th child being the i-th field's widget. -/
theorem C7_field_append (fs : List Field) (g : FormView) (f0 : Field) :
    ((g.field f0).fields = g.fields ++ [f0] ∧
     (g.field f0).view.children = g.view.children ++ [f0.build_widget]) ∧
    (fs.foldl FormView.field FormView.new).fields = fs ∧
    (fs.foldl FormView.field FormView.new).view.children = fs.map Field.build_widget ∧
    (fs.foldl FormView.field FormView.new).view.children =
      (fs.foldl FormView.field FormView.new).fields.map Field.build_widget := by
  obtain ⟨h1, h2⟩ := foldl_field_general fs FormView.new
  have hf : (fs.foldl FormView.field FormView.new).fields = fs := by
    rw [h1]; rfl
  have hw : (fs.foldl FormView.field FormView.new).view.children =
      fs.map Field.build_widget := by
    rw [h2]; rfl
  exact ⟨⟨rfl, rfl⟩, hf, hw, by rw [hw, hf]⟩

/-- C8: `validate` reads only the field list and each widget's current raw
text — two forms with the same fields and the same raw texts (regardless of
error annotations, callbacks, focus or title) validate to identical results.
Calling it twice with no intervening change to any raw text therefore yields
identical results, whatever else (such as error annotation) happened in
between. -/
theorem C8_validate_deterministic (f g : FormView)
    (hfs : f.fields = g.fields)
    (hraw : f.view.children.map Widget.raw = g.view.children.map Widget.raw) :
    f.validate = g.validate := by
  have hfold : validateFold (f.fields.zip f.view.children) ([], []) =
      validateFold (g.fields.zip g.view.children) ([], []) := by
    apply validateFold_congr
    rw [hfs]
    exact zip_raw_congr g.fields _ _ hraw
  simp only [FormView.validate, hfold]

/-- Witness for C8: the required-field form validates identically before and
after its widget got the error annotation, by applying the theorem there. -/
theorem C8_validate_deterministic_witness :
    exFormReq.validate = exFormReqAnnotated.validate :=
  C8_validate_deterministic exFormReq exFormReqAnnotated rfl rfl

/-- C9 (amended): the routing of `wrap_on_event` equals the spec-side routing
rule `routeSpec`: Enter dispatches on the current focus (Cancel → cancel,
Submit → submit, otherwise forwarded); a left mouse press is first given to
the wrapped view (its own result discarded) and then dispatches on the
resulting focus, reported ignored when focus is on neither control; a
non-left mouse press is reported ignored without being forwarded; Ctrl+f
submits from anywhere; every other event is forwarded unmodified. -/
theorem C9_routing (fwd : Forward) (f : FormView) (ev : Event) :
    FormView.wrap_on_event fwd f ev = routeSpec fwd f ev := by
  cases ev with
  | Mouse me =>
      cases me with
      | Press b =>
          by_cases hb : b = MouseButton.Left
          · subst hb
            simp only [FormView.wrap_on_event, routeSpec, if_pos rfl]
            exact focus_dispatch _ _ _ _
          · simp [FormView.wrap_on_event, routeSpec, hb]
      | Release b => rfl
      | Hold b => rfl
      | WheelUp => rfl
      | WheelDown => rfl
  | Key k =>
      cases k with
      | Enter =>
          simp only [FormView.wrap_on_event, routeSpec]
          exact focus_dispatch _ _ _ _
      | Tab => rfl
      | Backspace => rfl
      | Esc => rfl
      | Left => rfl
      | Right => rfl
      | Up => rfl
      | Down => rfl
  | CtrlChar c =>
      by_cases hc : c = 'f'
      · subst hc
        simp [FormView.wrap_on_event, routeSpec]
      · simp [FormView.wrap_on_event, routeSpec, hc]
  | Chr c => rfl
  | Refresh => rfl

/-- Counterexample to C9 as stated: a right-button mouse press matches none of
the three trigger clauses, yet it is not forwarded to the underlying widget
container — the routing reports it ignored even though the container's own
handler would have consumed it. -/
theorem C9_not_all_forwarded :
    FormView.wrap_on_event fwdConsume FormView.new
        (Event.Mouse (MouseEvent.Press MouseButton.Right)) =
      (FormView.new, EventResult.Ignored) ∧
    forwardTo fwdConsume FormView.new (Event.Mouse (MouseEvent.Press MouseButton.Right)) =
      (FormView.new, EventResult.Consumed none) ∧
    EventResult.Ignored ≠ EventResult.Consumed none :=
  ⟨rfl, rfl, fun h => EventResult.noConfusion h⟩

/-- C10: a cancel event with no registered cancel callback is still consumed
(with no callback to run), and a submit event whose validation succeeds with
no registered submit callback is still consumed; the absence of a callback
never yields an error or an ignored event. -/
theorem C10_consumed_without_callbacks (f g : FormView) (v : Value)
    (hc : f.on_cancel = none) (hs : g.on_submit = none)
    (hv : g.validate = Except.ok v) :
    f.event_cancel = (f, EventResult.Consumed none) ∧
    g.event_submit = (g, EventResult.Consumed none) := by
  constructor
  · simp [FormView.event_cancel, hc]
  · simp [FormView.event_submit, hv, hs]

/-- Witness for C10 at concrete forms with no callbacks registered, by
applying the theorem there. -/
theorem C10_consumed_without_callbacks_witness :
    exFormReq.event_cancel = (exFormReq, EventResult.Consumed none) ∧
    exFormOk.event_submit = (exFormOk, EventResult.Consumed none) :=
  C10_consumed_without_callbacks exFormReq exFormOk
    (Value.obj [("target", Value.str "archive.tar")]) rfl rfl rfl

end Fui
